import Mathlib

/-!
Verification development for the nitter guest-account log manager
(src/handler.rs, src/working_file.rs, src/main.rs).

The log file is modelled at the line level: the file state is the list of
its newline-terminated lines, in order.  The external serde_json library
appears in two places and is modelled as follows:

* record parsing during prune (serde_json::from_str::<GuestAccount>,
  which extracts the user.id_str string field) is an abstract parameter
  parseAccount : String → Option String;
* the stream deserializer over the append body is modelled by its output,
  a list of parse results List (Except Unit Json);
* compact re-serialization (serde_json::to_string) is modelled by a
  faithful serializer over a JSON value type (numbers restricted to
  integers, which is immaterial to the claims proved here).

Rust str::parse::<u64> is modelled concretely (parseU64), including the
overflow check against u64::MAX.  Machine integers are modelled as Nat/Int
with explicit reductions modulo 2^64 where the Rust code computes in u64.
-/

/-- The fixed custom epoch offset in milliseconds (literal 1288834974657 in
fn id_to_ts, src/handler.rs line 191). -/
def EPOCH_OFFSET_MS : Nat := 1288834974657

/-- MAX_AGE_DAYS constant of prune (src/handler.rs line 124). -/
def MAX_AGE_DAYS : Int := 25

/-- MAX_AGE_SECS constant of prune (src/handler.rs line 125). -/
def MAX_AGE_SECS : Int := MAX_AGE_DAYS * 24 * 60 * 60

/-- Models the Rust cast of a u64 value (here a Nat below 2^64) to i64:
two's-complement reinterpretation. -/
def u64_to_i64 (v : Nat) : Int :=
  if v < 2 ^ 63 then (v : Int) else (v : Int) - 2 ^ 64

/-- Embedding of fn id_to_ts (src/handler.rs lines 190-192):
`(((id >> 22) + 1288834974657) / 1000) as i64` computed in u64 arithmetic
(the addition is reduced modulo 2^64, modelling wraparound) and then cast
to i64. -/
def id_to_ts (id : Nat) : Int :=
  u64_to_i64 ((((id >>> 22) + EPOCH_OFFSET_MS) % 2 ^ 64) / 1000)

/-- The decoding rule exactly as the specification states it (spec section 3):
`timestamp_ms = (id >> 22) + EPOCH_OFFSET_MS`, converted to seconds by
truncating integer division by 1000, with no overflow reduction. -/
def id_to_ts_spec (id : Nat) : Int :=
  (((id >>> 22) + 1288834974657) / 1000 : Nat)

/-- The three response error variants (src/handler.rs lines 13-17). -/
inductive ResponseError where
  | forbidden
  | internal
  | invalidJson
deriving DecidableEq

mutual

/-- JSON values, modelling serde_json::Value with numbers restricted to
integers (sequences and objects are given by mutual inductives rather than
nested lists). -/
inductive Json where
  | null : Json
  | bool (b : Bool) : Json
  | num (n : Int) : Json
  | str (s : String) : Json
  | arr (xs : JsonSeq) : Json
  | obj (kvs : JsonMembers) : Json

/-- A sequence of JSON values (array elements). -/
inductive JsonSeq where
  | nil : JsonSeq
  | cons (hd : Json) (tl : JsonSeq) : JsonSeq

/-- A sequence of key/value members of a JSON object. -/
inductive JsonMembers where
  | nil : JsonMembers
  | cons (key : String) (value : Json) (tl : JsonMembers) : JsonMembers

end

/-- Decimal digit character for a digit below 10. -/
def decDigit (n : Nat) : Char :=
  match n with
  | 0 => '0'
  | 1 => '1'
  | 2 => '2'
  | 3 => '3'
  | 4 => '4'
  | 5 => '5'
  | 6 => '6'
  | 7 => '7'
  | 8 => '8'
  | 9 => '9'
  | _ => '0'

/-- Hexadecimal digit character for a digit below 16 (lowercase, as
serde_json emits in \u escapes). -/
def hexDigit (n : Nat) : Char :=
  match n with
  | 10 => 'a'
  | 11 => 'b'
  | 12 => 'c'
  | 13 => 'd'
  | 14 => 'e'
  | 15 => 'f'
  | m => decDigit m

/-- Decimal rendering of a Nat (models the integer formatting used by
serde_json::to_string). -/
def natDecimal (n : Nat) : String :=
  if _h : n < 10 then String.singleton (decDigit n)
  else natDecimal (n / 10) ++ String.singleton (decDigit (n % 10))
termination_by n
decreasing_by exact Nat.div_lt_self (by omega) (by omega)

/-- Decimal rendering of an Int. -/
def intDecimal (n : Int) : String :=
  if n < 0 then "-" ++ natDecimal n.natAbs else natDecimal n.toNat

/-- Escaping of one character inside a JSON string literal, following
serde_json's escape table: quote, backslash, the named control escapes
\b \t \n \f \r, \u00XX for the remaining control characters, and all other
characters verbatim. -/
def escapeChar (c : Char) : String :=
  if c = '"' then "\\\""
  else if c = '\\' then "\\\\"
  else if c.toNat = 8 then "\\b"
  else if c.toNat = 9 then "\\t"
  else if c.toNat = 10 then "\\n"
  else if c.toNat = 12 then "\\f"
  else if c.toNat = 13 then "\\r"
  else if c.toNat < 32 then
    "\\u00" ++ String.singleton (hexDigit (c.toNat / 16))
      ++ String.singleton (hexDigit (c.toNat % 16))
  else String.singleton c

/-- Escaping of a list of characters. -/
def escapeList : List Char → String
  | [] => ""
  | c :: cs => escapeChar c ++ escapeList cs

/-- A JSON string literal: quote, escaped contents, quote. -/
def escapeJsonString (s : String) : String :=
  "\"" ++ escapeList s.data ++ "\""

mutual

/-- Compact serialization of a JSON value, modelling
serde_json::to_string (src/handler.rs line 89): no whitespace, comma
separators, colon between key and value. -/
def Json.serialize : Json → String
  | .null => "null"
  | .bool true => "true"
  | .bool false => "false"
  | .num n => intDecimal n
  | .str s => escapeJsonString s
  | .arr xs => "[" ++ JsonSeq.serializeItems xs ++ "]"
  | .obj kvs => "\x7b" ++ JsonMembers.serializeItems kvs ++ "\x7d"

/-- Comma-separated serialization of array elements. -/
def JsonSeq.serializeItems : JsonSeq → String
  | .nil => ""
  | .cons x .nil => Json.serialize x
  | .cons x (.cons y tl) =>
      Json.serialize x ++ "," ++ JsonSeq.serializeItems (JsonSeq.cons y tl)

/-- Comma-separated serialization of object members. -/
def JsonMembers.serializeItems : JsonMembers → String
  | .nil => ""
  | .cons k v .nil => escapeJsonString k ++ ":" ++ Json.serialize v
  | .cons k v (.cons k2 v2 tl) =>
      escapeJsonString k ++ ":" ++ Json.serialize v ++ ","
        ++ JsonMembers.serializeItems (JsonMembers.cons k2 v2 tl)

end

/-- The log file state: the list of its lines, in order (each stored line
is written to disk followed by one newline byte). -/
abbrev FileState := List String

/-- Embedding of count (src/handler.rs lines 34-62): read the file
line-by-line and count the lines. -/
def count (file : FileState) : Nat := file.length

/-- Digit-accumulation loop of Rust str::parse::<u64>: consume decimal
digits, failing on a non-digit or when the accumulator would exceed
u64::MAX. -/
def parseU64Digits : Nat → List Char → Option Nat
  | acc, [] => some acc
  | acc, c :: cs =>
    if c.isDigit then
      let acc2 := acc * 10 + (c.toNat - 48)
      if acc2 < 2 ^ 64 then parseU64Digits acc2 cs else none
    else none

/-- Models Rust str::parse::<u64> (src/handler.rs line 155): an optional
leading plus sign followed by one or more decimal digits, value at most
u64::MAX; anything else fails. -/
def parseU64 (s : String) : Option Nat :=
  match s.data with
  | [] => none
  | '+' :: cs => if cs.isEmpty then none else parseU64Digits 0 cs
  | cs => parseU64Digits 0 cs

/-- The per-line parse performed by prune (src/handler.rs lines 150-156):
deserialize the line as a GuestAccount extracting user.id_str (external
serde_json, abstract parameter parseAccount), then parse that string as a
u64.  Either failure yields none (the code maps both onto an internal
error). -/
def parseId (parseAccount : String → Option String) (line : String) : Option Nat :=
  (parseAccount line).bind parseU64

/-- The retention test of prune (src/handler.rs line 158):
`current_time - ts < MAX_AGE_SECS`. -/
def retain (currentTime : Int) (id : Nat) : Bool :=
  decide (currentTime - id_to_ts id < MAX_AGE_SECS)

/-- The scan phase of prune (src/handler.rs lines 145-161): walk the lines
in order; on the first line whose parse fails the whole scan fails;
otherwise collect, in order, exactly the lines passing the retention
test. -/
def pruneScan (parseAccount : String → Option String) (currentTime : Int) :
    List String → Option (List String)
  | [] => some []
  | line :: rest =>
    match parseId parseAccount line with
    | none => none
    | some id =>
      match pruneScan parseAccount currentTime rest with
      | none => none
      | some kept =>
        if retain currentTime id then some (line :: kept) else some kept

/-- Embedding of prune (src/handler.rs lines 103-182): run the scan over
the whole file; any parse failure aborts with an internal error before the
file is touched; on success the file is truncated and rewritten to exactly
the retained lines. -/
def prune (parseAccount : String → Option String) (currentTime : Int)
    (file : FileState) : Except ResponseError Unit × FileState :=
  match pruneScan parseAccount currentTime file with
  | none => (Except.error ResponseError.internal, file)
  | some kept => (Except.ok (), kept)

/-- Embedding of append (src/handler.rs lines 65-100).  The request body is
modelled by the output of the serde_json stream deserializer over it: the
list of parse results in order.  Values are processed in order; each valid
value is re-serialized compactly and written as one line; the first invalid
value aborts with the invalid-json error, leaving the lines already written
in place. -/
def append (file : FileState) :
    List (Except Unit Json) → Except ResponseError Unit × FileState
  | [] => (Except.ok (), file)
  | Except.error _ :: _ => (Except.error ResponseError.invalidJson, file)
  | Except.ok v :: rest => append (file ++ [Json.serialize v]) rest

/-- The file-format invariant: no stored line contains a newline byte, so
that the on-disk rendering (each line followed by one newline) has exactly
one record per line. -/
def LinesWF (file : FileState) : Prop := ∀ l ∈ file, '\n' ∉ l.data

/-- The per-line decision of a successful scan, as a Boolean: a line is kept
exactly when its parse succeeds and the retention test passes (on a file
where every line parses, the scan keeps precisely the lines satisfying
this). -/
def keepLine (parseAccount : String → Option String) (currentTime : Int)
    (line : String) : Bool :=
  match parseId parseAccount line with
  | none => false
  | some id => retain currentTime id

/-- Every decimal digit character is rendered as an actual digit, never a
newline. -/
theorem decDigit_ne_newline (n : Nat) : decDigit n ≠ '\n' := by
  unfold decDigit
  split <;> decide

/-- Hexadecimal digit characters are never a newline. -/
theorem hexDigit_ne_newline (n : Nat) : hexDigit n ≠ '\n' := by
  unfold hexDigit
  split <;> first
    | decide
    | exact decDigit_ne_newline _

/-- Decimal renderings of naturals contain no newline. -/
theorem natDecimal_no_newline (n : Nat) : '\n' ∉ (natDecimal n).data := by
  induction n using Nat.strong_induction_on with
  | _ n ih =>
    rw [natDecimal]
    split
    · intro hmem
      rw [String.singleton] at hmem
      rcases List.mem_singleton.mp hmem with h
      exact decDigit_ne_newline n h.symm
    · rename_i hge
      rw [String.data_append]
      intro hmem
      rcases List.mem_append.mp hmem with h1 | h2
      · exact ih (n / 10) (Nat.div_lt_self (by omega) (by omega)) h1
      · rw [String.singleton] at h2
        exact decDigit_ne_newline (n % 10) (List.mem_singleton.mp h2).symm

/-- Decimal renderings of integers contain no newline. -/
theorem intDecimal_no_newline (n : Int) : '\n' ∉ (intDecimal n).data := by
  unfold intDecimal
  split
  · rw [String.data_append]
    intro hmem
    rcases List.mem_append.mp hmem with h1 | h2
    · exact absurd h1 (by decide)
    · exact natDecimal_no_newline _ h2
  · exact natDecimal_no_newline _

/-- The escape of one character contains no newline. -/
theorem escapeChar_no_newline (c : Char) : '\n' ∉ (escapeChar c).data := by
  unfold escapeChar
  split
  · decide
  split
  · decide
  split
  · decide
  split
  · decide
  split
  · decide
  split
  · decide
  split
  · decide
  split
  · rw [String.data_append, String.data_append]
    intro hmem
    rcases List.mem_append.mp hmem with h12 | h3
    · rcases List.mem_append.mp h12 with h1 | h2
      · exact absurd h1 (by decide)
      · rw [String.singleton] at h2
        exact hexDigit_ne_newline _ (List.mem_singleton.mp h2).symm
    · rw [String.singleton] at h3
      exact hexDigit_ne_newline _ (List.mem_singleton.mp h3).symm
  · rename_i hlt
    intro hmem
    rw [String.singleton] at hmem
    rcases List.mem_singleton.mp hmem with h
    rw [← h] at hlt
    exact hlt (by decide)

/-- Escaped character lists contain no newline. -/
theorem escapeList_no_newline (cs : List Char) : '\n' ∉ (escapeList cs).data := by
  induction cs with
  | nil => decide
  | cons c cs ih =>
    rw [escapeList, String.data_append]
    intro hmem
    rcases List.mem_append.mp hmem with h1 | h2
    · exact escapeChar_no_newline c h1
    · exact ih h2

/-- JSON string literals contain no newline. -/
theorem escapeJsonString_no_newline (s : String) : '\n' ∉ (escapeJsonString s).data := by
  unfold escapeJsonString
  rw [String.data_append, String.data_append]
  intro hmem
  rcases List.mem_append.mp hmem with h12 | h3
  · rcases List.mem_append.mp h12 with h1 | h2
    · exact absurd h1 (by decide)
    · exact escapeList_no_newline s.data h2
  · exact absurd h3 (by decide)

mutual

/-- Compact serialization of a JSON value contains no newline byte. -/
theorem Json.serialize_no_newline : ∀ j : Json, '\n' ∉ (Json.serialize j).data
  | .null => by decide
  | .bool true => by decide
  | .bool false => by decide
  | .num n => intDecimal_no_newline n
  | .str s => escapeJsonString_no_newline s
  | .arr xs => by
      rw [Json.serialize, String.data_append, String.data_append]
      intro hmem
      rcases List.mem_append.mp hmem with h12 | h3
      · rcases List.mem_append.mp h12 with h1 | h2
        · exact absurd h1 (by decide)
        · exact jsonSeq_serializeItems_no_newline xs h2
      · exact absurd h3 (by decide)
  | .obj kvs => by
      rw [Json.serialize, String.data_append, String.data_append]
      intro hmem
      rcases List.mem_append.mp hmem with h12 | h3
      · rcases List.mem_append.mp h12 with h1 | h2
        · exact absurd h1 (by decide)
        · exact jsonMembers_serializeItems_no_newline kvs h2
      · exact absurd h3 (by decide)

/-- Serialized array elements contain no newline byte. -/
theorem jsonSeq_serializeItems_no_newline :
    ∀ xs : JsonSeq, '\n' ∉ (JsonSeq.serializeItems xs).data
  | .nil => by decide
  | .cons x .nil => by
      rw [JsonSeq.serializeItems]
      exact Json.serialize_no_newline x
  | .cons x (.cons y tl) => by
      rw [JsonSeq.serializeItems, String.data_append, String.data_append]
      intro hmem
      rcases List.mem_append.mp hmem with h12 | h3
      · rcases List.mem_append.mp h12 with h1 | h2
        · exact Json.serialize_no_newline x h1
        · exact absurd h2 (by decide)
      · exact jsonSeq_serializeItems_no_newline (JsonSeq.cons y tl) h3

/-- Serialized object members contain no newline byte. -/
theorem jsonMembers_serializeItems_no_newline :
    ∀ kvs : JsonMembers, '\n' ∉ (JsonMembers.serializeItems kvs).data
  | .nil => by decide
  | .cons k v .nil => by
      rw [JsonMembers.serializeItems, String.data_append, String.data_append]
      intro hmem
      rcases List.mem_append.mp hmem with h12 | h3
      · rcases List.mem_append.mp h12 with h1 | h2
        · exact escapeJsonString_no_newline k h1
        · exact absurd h2 (by decide)
      · exact Json.serialize_no_newline v h3
  | .cons k v (.cons k2 v2 tl) => by
      rw [JsonMembers.serializeItems]
      rw [String.data_append, String.data_append, String.data_append, String.data_append]
      intro hmem
      rcases List.mem_append.mp hmem with h1234 | h5
      · rcases List.mem_append.mp h1234 with h123 | h4
        · rcases List.mem_append.mp h123 with h12 | h3
          · rcases List.mem_append.mp h12 with h1 | h2
            · exact escapeJsonString_no_newline k h1
            · exact absurd h2 (by decide)
          · exact Json.serialize_no_newline v h3
        · exact absurd h4 (by decide)
      · exact jsonMembers_serializeItems_no_newline (JsonMembers.cons k2 v2 tl) h5

end

/-- The 22-bit right shift of a u64 fits in 42 bits. -/
theorem shiftRight22_lt (id : Nat) (h : id < 2 ^ 64) : id >>> 22 < 2 ^ 42 := by
  rw [Nat.shiftRight_eq_div_pow]
  refine (Nat.div_lt_iff_lt_mul (by norm_num)).mpr ?_
  calc id < 2 ^ 64 := h
    _ = 2 ^ 42 * 2 ^ 22 := by norm_num

/-- C2: for every u64 identifier, the decoded creation timestamp computed by
id_to_ts equals the specification's reference rule
((id >> 22) + 1288834974657) / 1000 with truncating integer division. -/
theorem id_to_ts_eq_spec_rule (id : Nat) (h : id < 2 ^ 64) :
    id_to_ts id = id_to_ts_spec id := by
  have hs : id >>> 22 < 2 ^ 42 := shiftRight22_lt id h
  have hsum : (id >>> 22) + EPOCH_OFFSET_MS < 2 ^ 64 := by
    unfold EPOCH_OFFSET_MS
    generalize id >>> 22 = x at hs ⊢
    omega
  have hdiv : ((id >>> 22) + EPOCH_OFFSET_MS) / 1000 < 2 ^ 63 := by
    have h1 : ((id >>> 22) + EPOCH_OFFSET_MS) / 1000 ≤ (id >>> 22) + EPOCH_OFFSET_MS :=
      Nat.div_le_self _ _
    unfold EPOCH_OFFSET_MS at h1 ⊢
    generalize id >>> 22 = x at hs h1 ⊢
    omega
  unfold id_to_ts id_to_ts_spec u64_to_i64
  rw [Nat.mod_eq_of_lt hsum, if_pos hdiv]
  unfold EPOCH_OFFSET_MS
  rfl

/-- Witness for C2 at the example identifier. -/
theorem id_to_ts_eq_spec_rule_witness :
    id_to_ts 1541815603606036480 = id_to_ts_spec 1541815603606036480 :=
  id_to_ts_eq_spec_rule 1541815603606036480 (by norm_num)

/-- C10: the decoding is total and never overflows: for every u64 input the
shifted value fits in 42 bits, the addition of the epoch offset stays below
2^64, the quotient stays below 2^63, the cast to i64 is value-preserving,
and the result is non-negative. -/
theorem id_to_ts_total_no_overflow (id : Nat) (h : id < 2 ^ 64) :
    id >>> 22 ≤ 2 ^ 42 - 1 ∧
    (id >>> 22) + EPOCH_OFFSET_MS < 2 ^ 64 ∧
    ((id >>> 22) + EPOCH_OFFSET_MS) / 1000 < 2 ^ 63 ∧
    id_to_ts id = ((((id >>> 22) + EPOCH_OFFSET_MS) / 1000 : Nat) : Int) ∧
    0 ≤ id_to_ts id := by
  have hs : id >>> 22 < 2 ^ 42 := shiftRight22_lt id h
  have hsum : (id >>> 22) + EPOCH_OFFSET_MS < 2 ^ 64 := by
    unfold EPOCH_OFFSET_MS
    generalize id >>> 22 = x at hs ⊢
    omega
  have hdiv : ((id >>> 22) + EPOCH_OFFSET_MS) / 1000 < 2 ^ 63 := by
    have h1 : ((id >>> 22) + EPOCH_OFFSET_MS) / 1000 ≤ (id >>> 22) + EPOCH_OFFSET_MS :=
      Nat.div_le_self _ _
    unfold EPOCH_OFFSET_MS at h1 ⊢
    generalize id >>> 22 = x at hs h1 ⊢
    omega
  have hval : id_to_ts id = ((((id >>> 22) + EPOCH_OFFSET_MS) / 1000 : Nat) : Int) := by
    unfold id_to_ts u64_to_i64
    rw [Nat.mod_eq_of_lt hsum, if_pos hdiv]
  refine ⟨by omega, hsum, hdiv, hval, ?_⟩
  rw [hval]
  exact Int.natCast_nonneg _

/-- Witness for C10 at the example identifier. -/
theorem id_to_ts_total_no_overflow_witness :
    id_to_ts 1541815603606036480
      = ((((1541815603606036480 >>> 22) + EPOCH_OFFSET_MS) / 1000 : Nat) : Int) ∧
    0 ≤ id_to_ts 1541815603606036480 :=
  ⟨(id_to_ts_total_no_overflow 1541815603606036480 (by norm_num)).2.2.2.1,
   (id_to_ts_total_no_overflow 1541815603606036480 (by norm_num)).2.2.2.2⟩

/-- C9: the example identifier 1541815603606036480 decodes to the fixed
timestamp 1656432460 (2022-06-28 UTC); a record carrying it is pruned when
the captured current time is 26 days after that timestamp, and retained
when the captured current time is 1 day after it. -/
theorem example_id_decode_and_prune_boundaries :
    id_to_ts 1541815603606036480 = 1656432460 ∧
    retain (1656432460 + 26 * 86400) 1541815603606036480 = false ∧
    retain (1656432460 + 86400) 1541815603606036480 = true ∧
    prune (fun _ => some "1541815603606036480") (1656432460 + 26 * 86400) ["r"]
      = (Except.ok (), []) ∧
    prune (fun _ => some "1541815603606036480") (1656432460 + 86400) ["r"]
      = (Except.ok (), ["r"]) := by
  refine ⟨by decide, by decide, by decide, ?_, ?_⟩ <;> rfl

/-- On a file whose every line parses, the scan succeeds and keeps exactly
the lines passing the per-line decision, in order. -/
theorem pruneScan_eq_filter (pa : String → Option String) (t : Int) :
    ∀ file : List String, (∀ l ∈ file, (parseId pa l).isSome) →
      pruneScan pa t file = some (file.filter (keepLine pa t)) := by
  intro file
  induction file with
  | nil => intro _; rfl
  | cons line rest ih =>
    intro h
    have hline := h line (List.mem_cons_self line rest)
    obtain ⟨id, hid⟩ := Option.isSome_iff_exists.mp hline
    have hrest := ih fun x hx => h x (List.mem_cons_of_mem _ hx)
    rw [pruneScan]
    simp only [hid, hrest]
    by_cases hr : retain t id
    · simp [List.filter_cons, keepLine, hid, hr]
    · simp [List.filter_cons, keepLine, hid, hr]

/-- The scan's retained lines form a sublist of the original file. -/
theorem pruneScan_sublist (pa : String → Option String) (t : Int) :
    ∀ file kept : List String, pruneScan pa t file = some kept → kept.Sublist file := by
  intro file
  induction file with
  | nil =>
    intro kept h
    rw [pruneScan, Option.some.injEq] at h
    rw [← h]
  | cons line rest ih =>
    intro kept h
    rw [pruneScan] at h
    cases hid : parseId pa line with
    | none => simp [hid] at h
    | some id =>
      simp only [hid] at h
      cases hsc : pruneScan pa t rest with
      | none => simp [hsc] at h
      | some kept2 =>
        simp only [hsc] at h
        by_cases hr : retain t id
        · rw [if_pos hr, Option.some.injEq] at h
          rw [← h]
          exact List.Sublist.cons₂ line (ih kept2 hsc)
        · rw [if_neg hr, Option.some.injEq] at h
          rw [← h]
          exact List.Sublist.cons line (ih kept2 hsc)

/-- A successful scan requires every line of the file to parse. -/
theorem pruneScan_isSome_parse (pa : String → Option String) (t : Int) :
    ∀ file kept : List String, pruneScan pa t file = some kept →
      ∀ l ∈ file, (parseId pa l).isSome := by
  intro file
  induction file with
  | nil => intro kept _ l hl; exact absurd hl (by simp)
  | cons line rest ih =>
    intro kept h l hl
    rw [pruneScan] at h
    cases hid : parseId pa line with
    | none => simp [hid] at h
    | some id =>
      simp only [hid] at h
      cases hsc : pruneScan pa t rest with
      | none => simp [hsc] at h
      | some kept2 =>
        rcases List.mem_cons.mp hl with rfl | hmem
        · rw [hid]; rfl
        · exact ih kept2 hsc l hmem

/-- A parse failure anywhere in the file makes the whole scan fail. -/
theorem pruneScan_none_of_parse_failure (pa : String → Option String) (t : Int) :
    ∀ file : List String, (∃ l ∈ file, parseId pa l = none) →
      pruneScan pa t file = none := by
  intro file
  induction file with
  | nil => rintro ⟨l, hl, _⟩; exact absurd hl (by simp)
  | cons line rest ih =>
    rintro ⟨l, hl, hnone⟩
    rw [pruneScan]
    rcases List.mem_cons.mp hl with rfl | hmem
    · simp [hnone]
    · cases hid : parseId pa line with
      | none => rfl
      | some id => simp [ih ⟨l, hmem, hnone⟩]

/-- Appending a stream of valid values succeeds and adds exactly their
compact serializations, in order, at the end of the file. -/
theorem append_ok_values (vs : List Json) :
    ∀ file : FileState,
      append file (vs.map Except.ok) = (Except.ok (), file ++ vs.map Json.serialize) := by
  induction vs with
  | nil => intro file; simp [append]
  | cons v vs ih =>
    intro file
    rw [List.map_cons, append, ih]
    simp

/-- Appending a stream of valid values followed by a malformed value fails
with the invalid-json error, keeping exactly the valid values' lines. -/
theorem append_stream_prefix_error (oks : List Json) (rest : List (Except Unit Json)) :
    ∀ file : FileState,
      append file (oks.map Except.ok ++ Except.error () :: rest)
        = (Except.error ResponseError.invalidJson, file ++ oks.map Json.serialize) := by
  induction oks with
  | nil => intro file; simp [append]
  | cons v vs ih =>
    intro file
    rw [List.map_cons, List.cons_append, append, ih]
    simp

/-- Append preserves the one-record-per-line invariant. -/
theorem append_preserves_wf (stream : List (Except Unit Json)) :
    ∀ file : FileState, LinesWF file → LinesWF (append file stream).2 := by
  induction stream with
  | nil => intro file h; exact h
  | cons v rest ih =>
    intro file h
    cases v with
    | error e => exact h
    | ok j =>
      rw [append]
      apply ih
      intro l hl
      rcases List.mem_append.mp hl with h1 | h2
      · exact h l h1
      · rw [List.mem_singleton] at h2
        rw [h2]
        exact Json.serialize_no_newline j

/-- Prune preserves the one-record-per-line invariant. -/
theorem prune_preserves_wf (pa : String → Option String) (t : Int)
    (file : FileState) (h : LinesWF file) : LinesWF (prune pa t file).2 := by
  unfold prune
  split
  · exact h
  · rename_i kept hsc
    intro l hl
    exact h l ((pruneScan_sublist pa t file kept hsc).subset hl)

/-- C1: in a prune invocation with captured current time t, on a file whose
every line parses to a u64 identifier, the scan retains a line if and only
if t - id_to_ts id < MAX_AGE_SECS; a record whose age is exactly
MAX_AGE_SECS is pruned, one whose age is MAX_AGE_SECS - 1 is retained. -/
theorem prune_retains_iff_age_lt_max (pa : String → Option String) (t : Int)
    (file : List String) (ids : String → Nat)
    (h : ∀ l ∈ file, parseId pa l = some (ids l)) :
    MAX_AGE_SECS = 2160000 ∧
    pruneScan pa t file = some (file.filter fun l => retain t (ids l)) ∧
    (∀ id : Nat, t - id_to_ts id = MAX_AGE_SECS → retain t id = false) ∧
    (∀ id : Nat, t - id_to_ts id = MAX_AGE_SECS - 1 → retain t id = true) := by
  refine ⟨by decide, ?_, ?_, ?_⟩
  · rw [pruneScan_eq_filter pa t file (fun l hl => by rw [h l hl]; rfl)]
    congr 1
    apply List.filter_congr
    intro x hx
    simp [keepLine, h x hx]
  · intro id hid
    simp only [retain, decide_eq_false_iff_not, not_lt]
    omega
  · intro id hid
    simp only [retain, decide_eq_true_eq]
    omega

/-- Witness for C1: one fresh record, current time one day after its
creation, all hypotheses discharged concretely. -/
theorem prune_retains_iff_age_lt_max_witness :
    pruneScan (fun _ => some "1541815603606036480") (1656432460 + 86400) ["r"]
      = some (["r"].filter fun _ => retain (1656432460 + 86400) 1541815603606036480) :=
  (prune_retains_iff_age_lt_max (fun _ => some "1541815603606036480")
    (1656432460 + 86400) ["r"] (fun _ => 1541815603606036480)
    (fun _ _ => rfl)).2.1

/-- C3: if any line of the file fails to parse (either as a record carrying
user.id_str or because that string is not a u64), prune returns the
internal error and the file contents are completely unchanged. -/
theorem prune_parse_failure_error_file_unchanged (pa : String → Option String)
    (t : Int) (file : FileState) (h : ∃ l ∈ file, parseId pa l = none) :
    prune pa t file = (Except.error ResponseError.internal, file) := by
  unfold prune
  rw [pruneScan_none_of_parse_failure pa t file h]

/-- Witness for C3: a one-line file whose line does not parse. -/
theorem prune_parse_failure_error_file_unchanged_witness :
    prune (fun _ => none) 0 ["x"] = (Except.error ResponseError.internal, ["x"]) :=
  prune_parse_failure_error_file_unchanged (fun _ => none) 0 ["x"]
    ⟨"x", by simp, rfl⟩

/-- C4: an append body parsing as k valid JSON values followed by a
malformed remainder returns the invalid-json error; the k earlier values
remain appended (not rolled back) and nothing of the malformed value is
written; with k = 0 the file is unchanged. -/
theorem append_invalid_json_keeps_earlier_values (file : FileState)
    (oks : List Json) (rest : List (Except Unit Json)) :
    append file (oks.map Except.ok ++ Except.error () :: rest)
      = (Except.error ResponseError.invalidJson, file ++ oks.map Json.serialize) :=
  append_stream_prefix_error oks rest file

/-- C5: a successful prune rewrites the file to exactly the retained lines,
as their original text in their original relative order (a sublist of the
original lines: no reorder, no duplicate, no rewrite). -/
theorem prune_success_writes_exact_retained_lines (pa : String → Option String)
    (t : Int) (file kept : FileState) (h : pruneScan pa t file = some kept) :
    prune pa t file = (Except.ok (), kept) ∧ kept.Sublist file := by
  constructor
  · unfold prune
    rw [h]
  · exact pruneScan_sublist pa t file kept h

/-- Witness for C5 on a concrete one-line file. -/
theorem prune_success_writes_exact_retained_lines_witness :
    prune (fun _ => some "1541815603606036480") (1656432460 + 86400) ["r"]
      = (Except.ok (), ["r"]) ∧ List.Sublist ["r"] ["r"] :=
  prune_success_writes_exact_retained_lines (fun _ => some "1541815603606036480")
    (1656432460 + 86400) ["r"] ["r"] rfl

/-- C6: appending N valid JSON values succeeds, and the count afterwards
exceeds the count beforehand by exactly N (each value contributes exactly
one line). -/
theorem append_then_count_increases_by_n (file : FileState) (vs : List Json) :
    append file (vs.map Except.ok) = (Except.ok (), file ++ vs.map Json.serialize) ∧
    count (append file (vs.map Except.ok)).2 = count file + vs.length := by
  refine ⟨append_ok_values vs file, ?_⟩
  rw [append_ok_values vs file]
  simp [count]

/-- C7: prune is idempotent on the retained set: after a successful prune,
pruning again at the same captured time removes nothing and leaves the file
identical. -/
theorem prune_idempotent_on_retained_set (pa : String → Option String)
    (t : Int) (file kept : FileState)
    (h : prune pa t file = (Except.ok (), kept)) :
    prune pa t kept = (Except.ok (), kept) := by
  have hscan : pruneScan pa t file = some kept := by
    unfold prune at h
    cases hsc : pruneScan pa t file with
    | none => rw [hsc] at h; simp at h
    | some k =>
      rw [hsc] at h
      simp only [Prod.mk.injEq, Option.some.injEq] at h
      rw [h.2]
  have hall := pruneScan_isSome_parse pa t file kept hscan
  have hfilter := pruneScan_eq_filter pa t file hall
  rw [hscan, Option.some.injEq] at hfilter
  have hsub : kept.Sublist file := pruneScan_sublist pa t file kept hscan
  have hall2 : ∀ l ∈ kept, (parseId pa l).isSome := fun l hl => hall l (hsub.subset hl)
  have h2 := pruneScan_eq_filter pa t kept hall2
  have hself : kept.filter (keepLine pa t) = kept := by
    rw [List.filter_eq_self]
    intro a ha
    rw [hfilter] at ha
    exact List.of_mem_filter ha
  unfold prune
  rw [h2, hself]

/-- Witness for C7: a two-line file where the first record is pruned at the
captured time and the second retained; pruning the result again is a
no-op. -/
theorem prune_idempotent_on_retained_set_witness :
    prune
      (fun l => if l = "old" then some "1541815603606036480"
                else some "1560000000000000000")
      1658678860 ["new"]
      = (Except.ok (), ["new"]) :=
  prune_idempotent_on_retained_set
    (fun l => if l = "old" then some "1541815603606036480"
              else some "1560000000000000000")
    1658678860 ["old", "new"] ["new"] rfl

/-- C8: every operation preserves the one-record-per-line file format:
compact serialization never contains a newline byte (so append writes each
accepted value as a single line), and both append and prune map files whose
lines contain no newline to files whose lines contain no newline. -/
theorem operations_preserve_one_record_per_line :
    (∀ j : Json, '\n' ∉ (Json.serialize j).data) ∧
    (∀ (stream : List (Except Unit Json)) (file : FileState),
      LinesWF file → LinesWF (append file stream).2) ∧
    (∀ (pa : String → Option String) (t : Int) (file : FileState),
      LinesWF file → LinesWF (prune pa t file).2) :=
  ⟨Json.serialize_no_newline, append_preserves_wf,
   fun pa t file h => prune_preserves_wf pa t file h⟩

/-- Witness for C8 at concrete inputs for the hypotheses carried by its
inner statements. -/
theorem operations_preserve_one_record_per_line_witness :
    LinesWF ((append [] [Except.ok Json.null]).2) ∧
    LinesWF ((prune (fun _ => none) 0 ["x"]).2) :=
  ⟨operations_preserve_one_record_per_line.2.1 [Except.ok Json.null] []
      (fun l hl => absurd hl (by simp)),
   operations_preserve_one_record_per_line.2.2 (fun _ => none) 0 ["x"]
      (fun l hl => by
        rw [List.mem_singleton] at hl
        rw [hl]
        decide)⟩
